import Mathlib

/-!
Verification of the dashboard aggregation routines of `dojo/home/views.py`
(django-DefectDojo): `get_severities_all`, `get_severities_by_month`, and the
trailing-week counts computed by the `dashboard` view.

The embedding models a finding row by the columns this code reads
(`severity`, `created`, `mitigated`, the `created` dates of the associated
risk-acceptance rows, and the `duplicate` flag), and each ORM query by the
corresponding list computation:

* `values('severity').annotate(count=Count('severity'))` groups by the
  severity value and counts the non-null severities of each group
  (SQL `COUNT(column)` skips nulls);
* `values('created__year', 'created__month', 'severity').annotate(...)`
  groups by the (year, month, severity) triple the same way;
* `filter(...)` is `List.filter` with the lookup translated literally;
* `today - timedelta(days=6)` steps the calendar date back six days;
* `today - relativedelta(months=6)` moves the month index back six and
  clamps the day to the target month's length;
* Python's `sorted` over the items of a string-keyed dict is an insertion
  sort on the key (dict keys are pairwise distinct, so the sorted order is
  uniquely determined);
* `defaultdict(lambda: 0, ...)` is a total function returning 0 on keys
  that are absent.
-/

set_option maxHeartbeats 1000000

namespace DojoHome

/-- A calendar date, as stored in the `created` / `mitigated` columns. -/
structure Date where
  year : Nat
  month : Nat
  day : Nat
deriving DecidableEq

/-- `a ≤ b` on dates, lexicographically on (year, month, day), as the
database compares date values. -/
def Date.leB (a b : Date) : Bool :=
  Nat.blt a.year b.year ||
    (a.year == b.year &&
      (Nat.blt a.month b.month ||
        (a.month == b.month && Nat.ble a.day b.day)))

/-- `a < b` on dates, lexicographically on (year, month, day). -/
def Date.ltB (a b : Date) : Bool :=
  Nat.blt a.year b.year ||
    (a.year == b.year &&
      (Nat.blt a.month b.month ||
        (a.month == b.month && Nat.blt a.day b.day)))

/-- Gregorian leap-year rule, as implemented by Python's `calendar`. -/
def isLeap (y : Nat) : Bool :=
  (y % 4 == 0 && !(y % 100 == 0)) || (y % 400 == 0)

/-- Number of days of month `m` of year `y`. -/
def daysInMonth (y m : Nat) : Nat :=
  if m = 2 then (if isLeap y then 29 else 28)
  else if m = 4 ∨ m = 6 ∨ m = 9 ∨ m = 11 then 30
  else 31

/-- One step of `date - timedelta(days=n)`: the previous calendar day. -/
def Date.subOneDay (d : Date) : Date :=
  if 1 < d.day then { d with day := d.day - 1 }
  else if 1 < d.month then
    { year := d.year, month := d.month - 1, day := daysInMonth d.year (d.month - 1) }
  else { year := d.year - 1, month := 12, day := 31 }

/-- `date - timedelta(days=n)`. -/
def Date.subDays (d : Date) : Nat → Date
  | 0 => d
  | n + 1 => (Date.subDays d n).subOneDay

/-- `date - relativedelta(months=n)`: move the month index back `n`, then
clamp the day to the length of the target month. -/
def Date.subMonths (d : Date) (n : Nat) : Date :=
  let t := d.year * 12 + (d.month - 1) - n
  let y := t / 12
  let m := t % 12 + 1
  { year := y, month := m, day := min d.day (daysInMonth y m) }

/-- A valid calendar date (what Python's `datetime.date` can hold, except
that we do not bound the year above; Python also requires `1 ≤ year ≤ 9999`,
which claims needing it take as an explicit hypothesis). -/
def validDate (d : Date) : Prop :=
  1 ≤ d.month ∧ d.month ≤ 12 ∧ 1 ≤ d.day ∧ d.day ≤ daysInMonth d.year d.month

instance (d : Date) : Decidable (validDate d) := by
  unfold validDate; infer_instance

/-- A row of the findings table, restricted to the columns this view reads:
`only('severity', 'id', 'created', 'mitigated')` plus the prefetched
`risk_acceptance_set` (of which only each row's `created` date is used) and
the `duplicate` flag used by the dashboard's base filter. -/
structure Finding where
  severity : Option String
  created : Date
  mitigated : Option Date
  risk_acceptance : List Date
  duplicate : Bool
deriving DecidableEq

/-- Embeds `findings.values('severity').annotate(count=Count('severity'))`:
one `(severity, COUNT(severity))` row per distinct severity value.  SQL
`COUNT(column)` counts only the rows where the column is non-null. -/
def severityGroups (fs : List Finding) : List (Option String × Nat) :=
  ((fs.map Finding.severity).dedup).map fun s =>
    (s, fs.countP fun f => f.severity == s && f.severity.isSome)

/-- Embeds `get_severities_all`: the grouped severity counts wrapped in
`defaultdict(lambda: 0, ...)`, i.e. a total function that returns the
group's count on a present key and `0` on an absent one (a lookup can
never fail with a missing-key error). -/
def get_severities_all (fs : List Finding) : Option String → Nat := fun s =>
  match (severityGroups fs).lookup s with
  | some c => c
  | none => 0

/-- The key set of the severity-totals mapping returned by
`get_severities_all`: the distinct severity values of the input. -/
def severityKeys (fs : List Finding) : List (Option String) :=
  (fs.map Finding.severity).dedup

/-- The sum of the severity-totals mapping over all of its keys. -/
def sumSeverities (fs : List Finding) : Nat :=
  ((severityKeys fs).map (get_severities_all fs)).sum

/-- Decimal digits of a natural number, most significant first.  The fuel
argument (the number itself suffices) makes the recursion structural. -/
def natDigitsAux : Nat → Nat → List Nat
  | 0, n => [n % 10]
  | fuel + 1, n => if n < 10 then [n] else natDigitsAux fuel (n / 10) ++ [n % 10]

/-- Decimal digits of a natural number, most significant first. -/
def natDigits (n : Nat) : List Nat := natDigitsAux n n

/-- The character of a decimal digit. -/
def digitChar (d : Nat) : Char := Char.ofNat (48 + d)

/-- Python's `str` of a natural number: its decimal digit string. -/
def natStr (n : Nat) : String := ⟨(natDigits n).map digitChar⟩

/-- Embeds the f-string `f"{ms['created__year']}-{ms['created__month']:02}"`:
the year printed as is, the month zero-padded to width 2. -/
def monthKey (y m : Nat) : String :=
  natStr y ++ "-" ++ (if m < 10 then "0" ++ natStr m else natStr m)

/-- The `"YYYY-MM"` key a finding's creation date is grouped under. -/
def findingMonthKey (f : Finding) : String :=
  monthKey f.created.year f.created.month

/-- Embeds `SEVERITY_MAP.get(severity)`: the short chart code of a known
severity label, `None` for an unknown or null severity. -/
def SEVERITY_MAP_get : Option String → Option String
  | some "Critical" => some "a"
  | some "High" => some "b"
  | some "Medium" => some "c"
  | some "Low" => some "d"
  | some "Info" => some "e"
  | _ => none

/-- One row of the monthly chart data: the dict
`{'y': key, 'a': 0, 'b': 0, 'c': 0, 'd': 0, 'e': 0, None: 0}`, with the
unlabeled `None` entry modelled by the `unmapped` field. -/
structure MonthRow where
  y : String
  a : Nat
  b : Nat
  c : Nat
  d : Nat
  e : Nat
  unmapped : Nat
deriving DecidableEq

/-- The fresh row `{'y': key, 'a': 0, ..., None: 0}` that `setdefault`
supplies for a key not seen before. -/
def emptyRow (key : String) : MonthRow := ⟨key, 0, 0, 0, 0, 0, 0⟩

/-- `month_stats[SEVERITY_MAP.get(ms['severity'])] += ms['count']`: add `c`
to the slot named by `slot` (the `None` / unmapped slot for anything other
than the five chart codes). -/
def addToRow (r : MonthRow) (slot : Option String) (c : Nat) : MonthRow :=
  match slot with
  | some "a" => { r with a := r.a + c }
  | some "b" => { r with b := r.b + c }
  | some "c" => { r with c := r.c + c }
  | some "d" => { r with d := r.d + c }
  | some "e" => { r with e := r.e + c }
  | _ => { r with unmapped := r.unmapped + c }

/-- Value of the slot named by `sl` (proof-side accessor). -/
def slotGet (r : MonthRow) (sl : Option String) : Nat :=
  match sl with
  | some "a" => r.a
  | some "b" => r.b
  | some "c" => r.c
  | some "d" => r.d
  | some "e" => r.e
  | _ => r.unmapped

/-- The six slot names of a month row. -/
def slotNames : List (Option String) :=
  [some "a", some "b", some "c", some "d", some "e", none]

/-- Slot value of an optional row; a missing row counts as all-zero
(proof-side accessor). -/
def slotGetO (o : Option MonthRow) (sl : Option String) : Nat :=
  match o with
  | some r => slotGet r sl
  | none => 0

/-- One row of `findings.filter(created__date__gte=...)`
`.values('created__year', 'created__month', 'severity')`
`.annotate(count=Count('severity'))`. -/
structure SevGroup where
  year : Nat
  month : Nat
  severity : Option String
  count : Nat
deriving DecidableEq

/-- The grouping key `(created__year, created__month, severity)`. -/
def tripleOf (f : Finding) : Nat × Nat × Option String :=
  (f.created.year, f.created.month, f.severity)

/-- The grouped monthly severity counts: one row per distinct
(year, month, severity) triple, counting the group's non-null severities
(SQL `COUNT(severity)`). -/
def monthSeverityGroups (fs : List Finding) : List SevGroup :=
  ((fs.map tripleOf).dedup).map fun t =>
    { year := t.1, month := t.2.1, severity := t.2.2,
      count := fs.countP fun f => tripleOf f == t && f.severity.isSome }

/-- `results.setdefault(key, {...})` followed by the slot `+=`: update the
row at `key` in the association list, appending a fresh row if absent. -/
def upsert : List (String × MonthRow) → String → Option String → Nat →
    List (String × MonthRow)
  | [], key, slot, c => [(key, addToRow (emptyRow key) slot c)]
  | (k, r) :: rest, key, slot, c =>
      if k = key then (k, addToRow r slot c) :: rest
      else (k, r) :: upsert rest key slot c

/-- Association-list lookup on the `results` dict (proof-side accessor). -/
def findRow : List (String × MonthRow) → String → Option MonthRow
  | [], _ => none
  | (k, r) :: rest, key => if k = key then some r else findRow rest key

/-- Comparison used by `sorted(results.items())`: dict keys are pairwise
distinct, so sorting the items compares the `"YYYY-MM"` key strings. -/
def rowLE (p q : String × MonthRow) : Prop := p.1 ≤ q.1

instance : DecidableRel rowLE := fun p q =>
  decidable_of_iff (¬List.Lex (· < ·) q.1.toList p.1.toList)
    (not_congr String.lt_iff_toList_lt.symm)

instance : IsTotal (String × MonthRow) rowLE :=
  ⟨fun p q => le_total p.1 q.1⟩

instance : IsTrans (String × MonthRow) rowLE :=
  ⟨fun _ _ _ h₁ h₂ => le_trans h₁ h₂⟩

/-- The cutoff `today - relativedelta(months=6)` of the monthly chart. -/
def sixMonthsAgo (today : Date) : Date := Date.subMonths today 6

/-- The filter `created__date__gte=(today - relativedelta(months=6))`. -/
def inLast6Months (today : Date) (f : Finding) : Bool :=
  Date.leB (sixMonthsAgo today) f.created

/-- The `"YYYY-MM"` key of a grouped row:
`f"{ms['created__year']}-{ms['created__month']:02}"`. -/
def SevGroup.key (g : SevGroup) : String := monthKey g.year g.month

/-- One iteration of the reshaping loop: fetch-or-create the row of the
group's month key and add the group's count to the slot named by
`SEVERITY_MAP.get(ms['severity'])`. -/
def sevStep (rs : List (String × MonthRow)) (g : SevGroup) : List (String × MonthRow) :=
  upsert rs g.key (SEVERITY_MAP_get g.severity) g.count

/-- The `results` dict after the reshaping loop, as an association list in
insertion order. -/
def resultsOf (fs : List Finding) (today : Date) : List (String × MonthRow) :=
  (monthSeverityGroups (fs.filter (inLast6Months today))).foldl sevStep []

/-- Embeds `get_severities_by_month`: filter to the trailing six months,
group by (year, month, severity), reshape the group counts into one row per
`"YYYY-MM"` key, and return the rows sorted ascending by key
(`return [v for k, v in sorted(results.items())]`). -/
def get_severities_by_month (fs : List Finding) (today : Date) : List MonthRow :=
  (List.insertionSort rowLE (resultsOf fs today)).map Prod.snd

/-- A row of the engagements table, restricted to the `active` flag the
dashboard reads. -/
structure Engagement where
  active : Bool
deriving DecidableEq

/-- The externally owned data the dashboard reads: the authorized
engagements and findings (with their prefetched risk acceptances). -/
structure DojoState where
  engagements : List Engagement
  findings : List Finding
deriving DecidableEq

/-- `beginning_date = today - timedelta(days=6)`. -/
def beginning_date (today : Date) : Date := Date.subDays today 6

/-- `findings.filter(created__gte=beginning_date, created__lte=today).count()`. -/
def finding_count (fs : List Finding) (today : Date) : Nat :=
  (fs.filter fun f =>
    Date.leB (beginning_date today) f.created && Date.leB f.created today).length

/-- `findings.filter(mitigated__gte=beginning_date, mitigated__lte=today).count()`:
a null `mitigated` date satisfies neither bound. -/
def mitigated_count (fs : List Finding) (today : Date) : Nat :=
  (fs.filter fun f =>
    match f.mitigated with
    | some d => Date.leB (beginning_date today) d && Date.leB d today
    | none => false).length

/-- `findings.filter(risk_acceptance__created__gte=beginning_date,`
`risk_acceptance__created__lte=today).count()`: both bounds constrain the
same related risk-acceptance row, and the queryset carries `.distinct()`,
so this counts the findings having at least one risk acceptance created in
the window. -/
def accepted_count (fs : List Finding) (today : Date) : Nat :=
  (fs.filter fun f =>
    f.risk_acceptance.any fun d =>
      Date.leB (beginning_date today) d && Date.leB d today).length

/-- The template context assembled by the `dashboard` view (the parts
computed by this module; the punchcard series is delegated to an external
utility and not modelled). -/
structure DashboardData where
  engagement_count : Nat
  finding_count : Nat
  mitigated_count : Nat
  accepted_count : Nat
  critical : Nat
  high : Nat
  medium : Nat
  low : Nat
  info : Nat
  by_month : List MonthRow
deriving DecidableEq

/-- Embeds the `dashboard` view as a state transformer: it reads the
engagements and the non-duplicate findings, computes the aggregate counts,
and returns the state it was given together with the rendering context.
The source performs no `save`/`create`/`delete`, so the state passes
through unchanged. -/
def dashboard (st : DojoState) (today : Date) : DojoState × DashboardData :=
  let findings := st.findings.filter fun f => !f.duplicate
  let severity_count_all := get_severities_all findings
  (st,
    { engagement_count := (st.engagements.filter fun e => e.active).length
      finding_count := finding_count findings today
      mitigated_count := mitigated_count findings today
      accepted_count := accepted_count findings today
      critical := severity_count_all (some "Critical")
      high := severity_count_all (some "High")
      medium := severity_count_all (some "Medium")
      low := severity_count_all (some "Low")
      info := severity_count_all (some "Info")
      by_month := get_severities_by_month findings today })

/-- Sample finding: a Critical finding created 2022-06-01. -/
def fCrit : Finding :=
  { severity := some "Critical", created := ⟨2022, 6, 1⟩,
    mitigated := none, risk_acceptance := [], duplicate := false }

/-- Sample finding: a null-severity finding created 2022-06-01. -/
def fNull : Finding :=
  { severity := none, created := ⟨2022, 6, 1⟩,
    mitigated := none, risk_acceptance := [], duplicate := false }

/-- Sample finding: severity `"Foo"`, outside the known enumeration. -/
def fFoo : Finding :=
  { severity := some "Foo", created := ⟨2022, 6, 1⟩,
    mitigated := none, risk_acceptance := [], duplicate := false }

/-- Sample reference date 2022-06-15. -/
def sampleToday : Date := ⟨2022, 6, 15⟩

/-- Sample finding created in August 999 (a valid Python date). -/
def fOld999 : Finding :=
  { severity := some "Low", created := ⟨999, 8, 1⟩,
    mitigated := none, risk_acceptance := [], duplicate := false }

/-- Sample finding created in January 1000. -/
def fNew1000 : Finding :=
  { severity := some "High", created := ⟨1000, 1, 1⟩,
    mitigated := none, risk_acceptance := [], duplicate := false }

/-- Sample reference date 1000-01-15 (its six-month window reaches back to
999-07-15). -/
def today1000 : Date := ⟨1000, 1, 15⟩

/-- Sample finding created exactly `sampleToday - relativedelta(months=7)`
(2021-11-15). -/
def fSevenMonths : Finding :=
  { severity := some "High", created := ⟨2021, 11, 15⟩,
    mitigated := none, risk_acceptance := [], duplicate := false }

/-- Sample finding created, mitigated and risk-accepted on `sampleToday`. -/
def fAllThree : Finding :=
  { severity := some "Low", created := sampleToday,
    mitigated := some sampleToday, risk_acceptance := [sampleToday],
    duplicate := false }

/-! ## Theorems -/

theorem Date.leB_iff (a b : Date) :
    Date.leB a b = true ↔
      (a.year < b.year ∨ (a.year = b.year ∧
        (a.month < b.month ∨ (a.month = b.month ∧ a.day ≤ b.day)))) := by
  simp [Date.leB, Nat.blt, Nat.ble_eq, Nat.lt_iff_add_one_le]

theorem Date.ltB_iff (a b : Date) :
    Date.ltB a b = true ↔
      (a.year < b.year ∨ (a.year = b.year ∧
        (a.month < b.month ∨ (a.month = b.month ∧ a.day < b.day)))) := by
  simp [Date.ltB, Nat.blt, Nat.lt_iff_add_one_le]

section CountingLemmas

variable {α β : Type} [BEq β] [LawfulBEq β] [DecidableEq β]

theorem lookup_map_keyfn (g : β → Nat) (s : β) :
    ∀ keys : List β,
      (keys.map fun k => (k, g k)).lookup s =
        if s ∈ keys then some (g s) else none := by
  intro keys
  induction keys with
  | nil => simp [List.lookup]
  | cons k ks ih =>
      by_cases h : s = k
      · subst h; simp [List.lookup]
      · have hbeq : (s == k) = false := by simp [h]
        simp [List.lookup, hbeq, ih, List.mem_cons, h]

theorem countP_or_disjoint (f g : α → Bool) :
    ∀ l : List α, (∀ x ∈ l, ¬(f x = true ∧ g x = true)) →
      l.countP (fun x => f x || g x) = l.countP f + l.countP g := by
  intro l
  induction l with
  | nil => simp
  | cons a l ih =>
      intro h
      have ha := h a (List.mem_cons_self a l)
      have hl := ih fun x hx => h x (List.mem_cons_of_mem a hx)
      cases hfa : f a <;> cases hga : g a
      · simp [List.countP_cons, hfa, hga, hl]
      · simp [List.countP_cons, hfa, hga, hl]; omega
      · simp [List.countP_cons, hfa, hga, hl]; omega
      · exact absurd ⟨hfa, hga⟩ ha

/-- Partition-counting: summing, over a list of pairwise-distinct keys, the
count of elements mapping to each key (gated by a key predicate `q`) gives
the count of elements whose key lies in the list and satisfies `q`. -/
theorem sum_map_countP (l : List α) (key : α → β) (p : α → Bool) (q : β → Bool) :
    ∀ keys : List β, keys.Nodup →
      (keys.map fun k =>
          if q k then l.countP (fun x => key x == k && p x) else 0).sum =
        l.countP fun x => decide (key x ∈ keys) && q (key x) && p x := by
  intro keys
  induction keys with
  | nil => simp
  | cons k ks ih =>
      intro hnd
      have hk : k ∉ ks := (List.nodup_cons.mp hnd).1
      have hks : ks.Nodup := (List.nodup_cons.mp hnd).2
      have hsplit :
          l.countP (fun x => decide (key x ∈ k :: ks) && q (key x) && p x) =
            l.countP (fun x => (key x == k) && q (key x) && p x) +
              l.countP (fun x => decide (key x ∈ ks) && q (key x) && p x) := by
        have := countP_or_disjoint
          (fun x => (key x == k) && q (key x) && p x)
          (fun x => decide (key x ∈ ks) && q (key x) && p x) l ?_
        · rw [← this]
          apply List.countP_congr
          intro x _
          by_cases hxk : key x = k <;> by_cases hxs : key x ∈ ks <;>
            cases hq : q (key x) <;> cases hp : p x <;>
              simp [List.mem_cons, hxk, hxs, hq, hp]
        · intro x _ hc
          obtain ⟨h₁, h₂⟩ := hc
          have hxk : key x = k := by
            have hb : (key x == k) = true :=
              ((Bool.and_eq_true _ _).mp ((Bool.and_eq_true _ _).mp h₁).1).1
            exact eq_of_beq hb
          have hxm : key x ∈ ks := of_decide_eq_true
            ((Bool.and_eq_true _ _).mp ((Bool.and_eq_true _ _).mp h₂).1).1
          exact hk (hxk ▸ hxm)
      have hfirst :
          (if q k then l.countP (fun x => key x == k && p x) else 0) =
            l.countP (fun x => (key x == k) && q (key x) && p x) := by
        by_cases hq : q k = true
        · rw [if_pos hq]
          apply List.countP_congr
          intro x _
          by_cases hxk : key x = k <;> simp [hxk, hq]
        · have hq' : q k = false := by simpa using hq
          rw [if_neg (by simp [hq'])]
          have : l.countP (fun x => (key x == k) && q (key x) && p x) =
              l.countP (fun _ => false) := by
            apply List.countP_congr
            intro x _
            by_cases hxk : key x = k <;> simp [hxk, hq']
          simp [this]
      simp only [List.map_cons, List.sum_cons, ih hks, hsplit, hfirst]

end CountingLemmas

/-- `get_severities_all` evaluated at key `s`: the group's non-null count if
`s` occurs among the input's severities, `0` otherwise. -/
theorem get_severities_all_eq (fs : List Finding) (s : Option String) :
    get_severities_all fs s =
      if s ∈ severityKeys fs then
        fs.countP (fun f => f.severity == s && f.severity.isSome)
      else 0 := by
  unfold get_severities_all severityGroups
  rw [lookup_map_keyfn (fun s => fs.countP fun f => f.severity == s && f.severity.isSome) s]
  by_cases h : s ∈ (fs.map Finding.severity).dedup <;>
    simp [severityKeys, h]

/-- Specialization of `sum_map_countP` to an always-true key predicate. -/
theorem sum_map_countP_true {α β : Type} [BEq β] [LawfulBEq β] [DecidableEq β]
    (l : List α) (key : α → β) (p : α → Bool) (keys : List β) (h : keys.Nodup) :
    (keys.map fun k => l.countP (fun x => key x == k && p x)).sum =
      l.countP fun x => decide (key x ∈ keys) && p x := by
  have h2 := sum_map_countP l key p (fun _ => true) keys h
  simpa using h2

/-- C1 (counterexample): for the one-element collection holding a finding
with a null severity, the severity-total mapping sums over its keys to `0`,
not to the collection's size `1` — `COUNT(severity)` skips null values. -/
theorem C1_counterexample :
    sumSeverities [fNull] ≠ ([fNull] : List Finding).length := by
  decide

/-- C1 (amended): the severity-total mapping returned by
`get_severities_all` sums, over all its keys, to the number of findings
with a non-null severity; each such finding is counted exactly once under
its severity label (a null-severity finding contributes `0`). -/
theorem C1_sum_severities (fs : List Finding) :
    sumSeverities fs = fs.countP fun f => f.severity.isSome := by
  have h1 : sumSeverities fs =
      ((severityKeys fs).map fun k =>
        fs.countP (fun f => f.severity == k && f.severity.isSome)).sum := by
    unfold sumSeverities
    refine congrArg List.sum (List.map_congr_left ?_)
    intro k hk
    rw [get_severities_all_eq, if_pos hk]
  have h2 := sum_map_countP_true fs Finding.severity
    (fun f => f.severity.isSome) (severityKeys fs) (List.nodup_dedup _)
  have h3 : (fs.countP fun f =>
      decide (f.severity ∈ severityKeys fs) && f.severity.isSome) =
      fs.countP fun f => f.severity.isSome := by
    apply List.countP_congr
    intro f hf
    have hmem : f.severity ∈ severityKeys fs :=
      List.mem_dedup.mpr (List.mem_map_of_mem Finding.severity hf)
    simp [hmem]
  exact h1.trans (h2.trans h3)

/-- C7: a severity label absent from the collection looks up to exactly `0`
in the mapping returned by `get_severities_all`; the mapping is a total
function (a `defaultdict`), so the lookup cannot fail. -/
theorem C7_absent_severity_zero (fs : List Finding) (s : String)
    (h : ∀ f ∈ fs, f.severity ≠ some s) :
    get_severities_all fs (some s) = 0 := by
  rw [get_severities_all_eq]
  have hm : some s ∉ severityKeys fs := by
    intro hmem
    rcases List.mem_map.mp (List.mem_dedup.mp hmem) with ⟨f, hf, hfs⟩
    exact h f hf hfs
  rw [if_neg hm]

/-- C7 (witness): `"High"` is absent from a collection holding only a
Critical finding, and its lookup yields `0`. -/
theorem C7_witness :
    (∀ f ∈ [fCrit], f.severity ≠ some "High") ∧
      get_severities_all [fCrit] (some "High") = 0 :=
  ⟨by decide, C7_absent_severity_zero [fCrit] "High" (by decide)⟩

theorem addToRow_y (r : MonthRow) (sl : Option String) (c : Nat) :
    (addToRow r sl c).y = r.y := by
  unfold addToRow
  split <;> rfl

theorem slotGet_emptyRow (k : String) (sl : Option String) :
    slotGet (emptyRow k) sl = 0 := by
  unfold slotGet emptyRow
  split <;> rfl

theorem SEVERITY_MAP_get_mem_slotNames (s : Option String) :
    SEVERITY_MAP_get s ∈ slotNames := by
  unfold SEVERITY_MAP_get
  split <;> simp [slotNames]

theorem slotGet_addToRow (r : MonthRow) (c : Nat) (sl sl' : Option String)
    (hsl : sl ∈ slotNames) (hsl' : sl' ∈ slotNames) :
    slotGet (addToRow r sl c) sl' =
      slotGet r sl' + if sl' = sl then c else 0 := by
  simp only [slotNames, List.mem_cons, List.mem_singleton, List.not_mem_nil,
    or_false] at hsl hsl'
  rcases hsl with rfl | rfl | rfl | rfl | rfl | rfl <;>
    rcases hsl' with rfl | rfl | rfl | rfl | rfl | rfl <;>
      simp [addToRow, slotGet]

theorem findRow_upsert (k₀ k : String) (sl : Option String) (c : Nat) :
    ∀ rs : List (String × MonthRow),
      findRow (upsert rs k₀ sl c) k =
        if k = k₀ then
          some (addToRow ((findRow rs k₀).getD (emptyRow k₀)) sl c)
        else findRow rs k := by
  intro rs
  induction rs with
  | nil =>
      by_cases h : k = k₀
      · subst h; simp [upsert, findRow]
      · simp [upsert, findRow, h, Ne.symm h]
  | cons p rest ih =>
      obtain ⟨k', r⟩ := p
      by_cases h1 : k' = k₀
      · subst h1
        by_cases h2 : k = k'
        · subst h2; simp [upsert, findRow]
        · simp [upsert, findRow, h2, Ne.symm h2]
      · by_cases h2 : k' = k
        · subst h2
          simp [upsert, findRow, h1]
        · simp [upsert, findRow, h1, h2, ih]

theorem keys_upsert (k₀ : String) (sl : Option String) (c : Nat) :
    ∀ rs : List (String × MonthRow),
      (upsert rs k₀ sl c).map Prod.fst =
        if k₀ ∈ rs.map Prod.fst then rs.map Prod.fst
        else rs.map Prod.fst ++ [k₀] := by
  intro rs
  induction rs with
  | nil => simp [upsert]
  | cons p rest ih =>
      obtain ⟨k', r⟩ := p
      by_cases h1 : k' = k₀
      · subst h1; simp [upsert]
      · by_cases h2 : k₀ ∈ rest.map Prod.fst <;>
          simp [upsert, h1, Ne.symm h1, ih, h2, List.mem_cons]

theorem upsert_y_invariant (k₀ : String) (sl : Option String) (c : Nat) :
    ∀ rs : List (String × MonthRow),
      (∀ p ∈ rs, (Prod.snd p).y = p.1) →
        ∀ p ∈ upsert rs k₀ sl c, (Prod.snd p).y = p.1 := by
  intro rs
  induction rs with
  | nil =>
      intro _ p hp
      rw [show upsert [] k₀ sl c = [(k₀, addToRow (emptyRow k₀) sl c)] from rfl,
        List.mem_singleton] at hp
      rw [hp]
      simp [addToRow_y, emptyRow]
  | cons q rest ih =>
      obtain ⟨k', r⟩ := q
      intro h p hp
      by_cases h1 : k' = k₀
      · subst h1
        rw [show upsert ((k', r) :: rest) k' sl c =
            (k', addToRow r sl c) :: rest from by simp [upsert],
          List.mem_cons] at hp
        rcases hp with hp | hp
        · rw [hp]
          simpa [addToRow_y] using h (k', r) (List.mem_cons_self _ _)
        · exact h p (List.mem_cons_of_mem _ hp)
      · rw [show upsert ((k', r) :: rest) k₀ sl c =
            (k', r) :: upsert rest k₀ sl c from by simp [upsert, h1],
          List.mem_cons] at hp
        rcases hp with hp | hp
        · rw [hp]
          exact h (k', r) (List.mem_cons_self _ _)
        · exact ih (fun q hq => h q (List.mem_cons_of_mem _ hq)) p hp

theorem slotGetO_upsert (rs : List (String × MonthRow)) (k₀ k : String)
    (sl₀ sl : Option String) (c : Nat)
    (hsl₀ : sl₀ ∈ slotNames) (hsl : sl ∈ slotNames) :
    slotGetO (findRow (upsert rs k₀ sl₀ c) k) sl =
      slotGetO (findRow rs k) sl + if k = k₀ ∧ sl = sl₀ then c else 0 := by
  by_cases h : k = k₀
  · subst h
    cases hfr : findRow rs k with
    | some r =>
        rw [findRow_upsert, hfr, if_pos rfl, Option.getD_some]
        rw [show slotGetO (some (addToRow r sl₀ c)) sl = slotGet (addToRow r sl₀ c) sl from rfl,
          show slotGetO (some r) sl = slotGet r sl from rfl,
          slotGet_addToRow r c sl₀ sl hsl₀ hsl]
        by_cases h2 : sl = sl₀
        · rw [if_pos h2, if_pos ⟨rfl, h2⟩]
        · rw [if_neg h2, if_neg (fun hc => h2 hc.2)]
    | none =>
        rw [findRow_upsert, hfr, if_pos rfl, Option.getD_none]
        rw [show slotGetO (some (addToRow (emptyRow k) sl₀ c)) sl =
            slotGet (addToRow (emptyRow k) sl₀ c) sl from rfl,
          show slotGetO (none : Option MonthRow) sl = 0 from rfl,
          slotGet_addToRow (emptyRow k) c sl₀ sl hsl₀ hsl, slotGet_emptyRow]
        by_cases h2 : sl = sl₀
        · rw [if_pos h2, if_pos ⟨rfl, h2⟩]
        · rw [if_neg h2, if_neg (fun hc => h2 hc.2)]
  · rw [findRow_upsert, if_neg h, if_neg (fun hc => h hc.1), Nat.add_zero]

theorem foldl_slot (k : String) (sl : Option String) (hsl : sl ∈ slotNames) :
    ∀ (gs : List SevGroup) (rs : List (String × MonthRow)),
      slotGetO (findRow (gs.foldl sevStep rs) k) sl =
        slotGetO (findRow rs k) sl +
          ((gs.filter fun g =>
              decide (g.key = k) && decide (SEVERITY_MAP_get g.severity = sl)).map
            SevGroup.count).sum := by
  intro gs
  induction gs with
  | nil => intro rs; simp
  | cons g gs ih =>
      intro rs
      rw [List.foldl_cons, ih]
      rw [show sevStep rs g = upsert rs g.key (SEVERITY_MAP_get g.severity) g.count from rfl]
      rw [slotGetO_upsert rs g.key k (SEVERITY_MAP_get g.severity) sl g.count
        (SEVERITY_MAP_get_mem_slotNames _) hsl]
      by_cases h1 : g.key = k <;> by_cases h2 : SEVERITY_MAP_get g.severity = sl
      · rw [if_pos ⟨h1.symm, h2.symm⟩,
          List.filter_cons_of_pos (by simp [h1, h2]), List.map_cons, List.sum_cons]
        omega
      · rw [if_neg (fun hc => h2 hc.2.symm),
          List.filter_cons_of_neg (by simp [h2])]
        omega
      · rw [if_neg (fun hc => h1 hc.1.symm),
          List.filter_cons_of_neg (by simp [h1])]
        omega
      · rw [if_neg (fun hc => h1 hc.1.symm),
          List.filter_cons_of_neg (by simp [h1])]
        omega

theorem findRow_upsert_ne_none (rs : List (String × MonthRow)) (k₀ k : String)
    (sl : Option String) (c : Nat) :
    findRow (upsert rs k₀ sl c) k = none ↔ (k ≠ k₀ ∧ findRow rs k = none) := by
  rw [findRow_upsert]
  by_cases h : k = k₀ <;> simp [h]

theorem findRow_foldl_none_iff (k : String) :
    ∀ (gs : List SevGroup) (rs : List (String × MonthRow)),
      findRow (gs.foldl sevStep rs) k = none ↔
        (findRow rs k = none ∧ ∀ g ∈ gs, g.key ≠ k) := by
  intro gs
  induction gs with
  | nil => intro rs; simp
  | cons g gs ih =>
      intro rs
      rw [List.foldl_cons, ih]
      rw [show sevStep rs g = upsert rs g.key (SEVERITY_MAP_get g.severity) g.count from rfl]
      rw [findRow_upsert_ne_none]
      constructor
      · rintro ⟨⟨h1, h2⟩, h3⟩
        refine ⟨h2, ?_⟩
        intro g' hg'
        rcases List.mem_cons.mp hg' with hg' | hg'
        · rw [hg']; exact fun he => h1 he.symm
        · exact h3 g' hg'
      · rintro ⟨h1, h2⟩
        exact ⟨⟨fun he => h2 g (List.mem_cons_self _ _) he.symm, h1⟩,
          fun g' hg' => h2 g' (List.mem_cons_of_mem _ hg')⟩

theorem foldl_y_invariant :
    ∀ (gs : List SevGroup) (rs : List (String × MonthRow)),
      (∀ p ∈ rs, (Prod.snd p).y = p.1) →
        ∀ p ∈ gs.foldl sevStep rs, (Prod.snd p).y = p.1 := by
  intro gs
  induction gs with
  | nil => intro rs h; exact h
  | cons g gs ih =>
      intro rs h
      exact ih _ (upsert_y_invariant _ _ _ _ h)

theorem nodup_keys_foldl :
    ∀ (gs : List SevGroup) (rs : List (String × MonthRow)),
      (rs.map Prod.fst).Nodup → ((gs.foldl sevStep rs).map Prod.fst).Nodup := by
  intro gs
  induction gs with
  | nil => intro rs h; exact h
  | cons g gs ih =>
      intro rs h
      refine ih _ ?_
      rw [show sevStep rs g = upsert rs g.key (SEVERITY_MAP_get g.severity) g.count from rfl]
      rw [keys_upsert]
      by_cases hm : g.key ∈ rs.map Prod.fst
      · rw [if_pos hm]; exact h
      · rw [if_neg hm, List.nodup_append]
        refine ⟨h, List.nodup_singleton _, ?_⟩
        intro a ha hb
        rw [List.mem_singleton] at hb
        subst hb
        exact hm ha

theorem findRow_eq_some_of_mem (k : String) (r : MonthRow) :
    ∀ rs : List (String × MonthRow),
      (rs.map Prod.fst).Nodup → (k, r) ∈ rs → findRow rs k = some r := by
  intro rs
  induction rs with
  | nil => intro _ h; cases h
  | cons p rest ih =>
      obtain ⟨k', r'⟩ := p
      intro hnd hm
      rw [List.map_cons] at hnd
      have hnd' := List.nodup_cons.mp hnd
      rcases List.mem_cons.mp hm with hm | hm
      · injection hm with h1 h2
        subst h1; subst h2
        rw [findRow, if_pos rfl]
      · have hk : k' ≠ k := by
          intro he
          subst he
          exact hnd'.1 (List.mem_map.mpr ⟨(k', r), hm, rfl⟩)
        rw [findRow, if_neg hk]
        exact ih hnd'.2 hm

theorem mem_of_findRow_eq_some (k : String) (r : MonthRow) :
    ∀ rs : List (String × MonthRow),
      findRow rs k = some r → (k, r) ∈ rs := by
  intro rs
  induction rs with
  | nil => intro h; cases h
  | cons p rest ih =>
      obtain ⟨k', r'⟩ := p
      intro h
      rw [findRow] at h
      by_cases hk : k' = k
      · rw [if_pos hk] at h
        injection h with h
        exact List.mem_cons.mpr (Or.inl (by rw [← hk, h]))
      · rw [if_neg hk] at h
        exact List.mem_cons.mpr (Or.inr (ih h))

theorem resultsOf_y (fs : List Finding) (today : Date) :
    ∀ p ∈ resultsOf fs today, (Prod.snd p).y = p.1 :=
  foldl_y_invariant _ _ (by intro p hp; cases hp)

theorem resultsOf_nodup_keys (fs : List Finding) (today : Date) :
    ((resultsOf fs today).map Prod.fst).Nodup :=
  nodup_keys_foldl _ _ (by simp)

/-- A row is in the output of `get_severities_by_month` exactly when the
`results` dict maps the row's own key string to it. -/
theorem mem_by_month_iff (fs : List Finding) (today : Date) (r : MonthRow) :
    r ∈ get_severities_by_month fs today ↔
      findRow (resultsOf fs today) r.y = some r := by
  unfold get_severities_by_month
  constructor
  · intro hr
    rcases List.mem_map.mp hr with ⟨p, hp, hpr⟩
    have hmem : p ∈ resultsOf fs today := (List.mem_insertionSort rowLE).mp hp
    have hy : (Prod.snd p).y = p.1 := resultsOf_y fs today p hmem
    obtain ⟨k, r'⟩ := p
    have hr' : r' = r := hpr
    subst hr'
    have hyk : r'.y = k := hy
    rw [hyk]
    exact findRow_eq_some_of_mem k r' _ (resultsOf_nodup_keys fs today) hmem
  · intro hfr
    have hmem := mem_of_findRow_eq_some r.y r _ hfr
    exact List.mem_map.mpr ⟨(r.y, r), (List.mem_insertionSort rowLE).mpr hmem, rfl⟩

theorem sum_filter_map_eq {β : Type} (v : β → Nat) (q : β → Bool) :
    ∀ keys : List β,
      ((keys.filter q).map v).sum = (keys.map fun t => if q t then v t else 0).sum := by
  intro keys
  induction keys with
  | nil => rfl
  | cons t ts ih => cases hq : q t <;> simp [List.filter_cons, hq, ih]

/-- The per-month, per-slot sum over the grouped rows equals a direct count
over the findings. -/
theorem groups_sum_eq_countP (l : List Finding) (k : String) (sl : Option String) :
    (((monthSeverityGroups l).filter fun g =>
        decide (g.key = k) && decide (SEVERITY_MAP_get g.severity = sl)).map
      SevGroup.count).sum =
      l.countP fun f => decide (findingMonthKey f = k) &&
        decide (SEVERITY_MAP_get f.severity = sl) && f.severity.isSome := by
  unfold monthSeverityGroups
  rw [List.filter_map, List.map_map]
  rw [show ((l.map tripleOf).dedup.filter
        ((fun g => decide (SevGroup.key g = k) && decide (SEVERITY_MAP_get g.severity = sl)) ∘
          fun t => SevGroup.mk t.1 t.2.1 t.2.2
            (l.countP fun f => tripleOf f == t && f.severity.isSome))).map
      (SevGroup.count ∘ fun t => SevGroup.mk t.1 t.2.1 t.2.2
        (l.countP fun f => tripleOf f == t && f.severity.isSome)) =
      ((l.map tripleOf).dedup.filter fun t =>
        decide (monthKey t.1 t.2.1 = k) && decide (SEVERITY_MAP_get t.2.2 = sl)).map
      (fun t => l.countP fun f => tripleOf f == t && f.severity.isSome) from rfl]
  rw [sum_filter_map_eq]
  rw [show ((l.map tripleOf).dedup.map fun t =>
      if decide (monthKey t.1 t.2.1 = k) && decide (SEVERITY_MAP_get t.2.2 = sl) then
        l.countP (fun f => tripleOf f == t && f.severity.isSome)
      else 0) =
    ((l.map tripleOf).dedup.map fun t =>
      if (fun t : Nat × Nat × Option String =>
          decide (monthKey t.1 t.2.1 = k) && decide (SEVERITY_MAP_get t.2.2 = sl)) t then
        l.countP (fun f => tripleOf f == t && (fun f : Finding => f.severity.isSome) f)
      else 0) from rfl]
  rw [sum_map_countP l tripleOf (fun f => f.severity.isSome)
    (fun t => decide (monthKey t.1 t.2.1 = k) && decide (SEVERITY_MAP_get t.2.2 = sl))
    (l.map tripleOf).dedup (List.nodup_dedup _)]
  apply List.countP_congr
  intro f hf
  have hmem : tripleOf f ∈ (l.map tripleOf).dedup :=
    List.mem_dedup.mpr (List.mem_map_of_mem tripleOf hf)
  have e1 : decide (tripleOf f ∈ (l.map tripleOf).dedup) = true := by
    simp [hmem]
  rw [e1]
  exact Iff.rfl

/-- Every slot of every output row of `get_severities_by_month` counts
exactly the in-window findings of that row's month whose severity maps to
that slot (null severities contribute nothing: `COUNT(severity)`). -/
theorem by_month_slot (fs : List Finding) (today : Date) (r : MonthRow)
    (hr : r ∈ get_severities_by_month fs today)
    (sl : Option String) (hsl : sl ∈ slotNames) :
    slotGet r sl = (fs.filter (inLast6Months today)).countP
      (fun f => decide (findingMonthKey f = r.y) &&
        decide (SEVERITY_MAP_get f.severity = sl) && f.severity.isSome) := by
  have hfr := (mem_by_month_iff fs today r).mp hr
  have h1 := foldl_slot r.y sl hsl
    (monthSeverityGroups (fs.filter (inLast6Months today))) []
  rw [show (monthSeverityGroups (fs.filter (inLast6Months today))).foldl sevStep [] =
    resultsOf fs today from rfl] at h1
  rw [hfr] at h1
  rw [show slotGetO (some r) sl = slotGet r sl from rfl] at h1
  rw [show slotGetO (findRow ([] : List (String × MonthRow)) r.y) sl = 0 from rfl,
    Nat.zero_add] at h1
  rw [h1, groups_sum_eq_countP]

/-- A month key appears among the output rows exactly when some in-window
finding was created in that month. -/
theorem by_month_key_exists_iff (fs : List Finding) (today : Date) (k : String) :
    (∃ r ∈ get_severities_by_month fs today, r.y = k) ↔
      ∃ f ∈ fs, inLast6Months today f = true ∧ findingMonthKey f = k := by
  constructor
  · rintro ⟨r, hr, rfl⟩
    have hfr := (mem_by_month_iff fs today r).mp hr
    have hne : findRow (resultsOf fs today) r.y ≠ none := by
      rw [hfr]; exact fun h => Option.noConfusion h
    have := findRow_foldl_none_iff r.y
      (monthSeverityGroups (fs.filter (inLast6Months today))) []
    rw [show (monthSeverityGroups (fs.filter (inLast6Months today))).foldl sevStep [] =
      resultsOf fs today from rfl] at this
    have hex : ¬∀ g ∈ monthSeverityGroups (fs.filter (inLast6Months today)),
        g.key ≠ r.y := by
      intro hall
      exact hne (this.mpr ⟨rfl, hall⟩)
    push_neg at hex
    obtain ⟨g, hg, hgk⟩ := hex
    rcases List.mem_map.mp hg with ⟨t, ht, hgt⟩
    rcases List.mem_map.mp (List.mem_dedup.mp ht) with ⟨f, hf, hft⟩
    refine ⟨f, (List.mem_filter.mp hf).1, (List.mem_filter.mp hf).2, ?_⟩
    have hkey : g.key = monthKey t.1 t.2.1 := by rw [← hgt]; rfl
    rw [← hgk, hkey, ← hft]
    rfl
  · rintro ⟨f, hf, hw, rfl⟩
    have hfl : f ∈ fs.filter (inLast6Months today) := List.mem_filter.mpr ⟨hf, hw⟩
    have ht : tripleOf f ∈ ((fs.filter (inLast6Months today)).map tripleOf).dedup :=
      List.mem_dedup.mpr (List.mem_map_of_mem tripleOf hfl)
    have hg : ∃ g ∈ monthSeverityGroups (fs.filter (inLast6Months today)),
        g.key = findingMonthKey f := by
      refine ⟨_, List.mem_map_of_mem _ ht, ?_⟩
      rfl
    obtain ⟨g, hgmem, hgk⟩ := hg
    have hiff := findRow_foldl_none_iff (findingMonthKey f)
      (monthSeverityGroups (fs.filter (inLast6Months today))) []
    rw [show (monthSeverityGroups (fs.filter (inLast6Months today))).foldl sevStep [] =
      resultsOf fs today from rfl] at hiff
    cases hfr : findRow (resultsOf fs today) (findingMonthKey f) with
    | none =>
        exact absurd ((hiff.mp hfr).2 g hgmem) (by simp [hgk])
    | some r =>
        have hmem := mem_of_findRow_eq_some _ _ _ hfr
        have hy : r.y = findingMonthKey f := resultsOf_y fs today _ hmem
        refine ⟨r, ?_, hy⟩
        rw [mem_by_month_iff, hy]
        exact hfr

theorem beq_eq_decideEq {γ : Type} [BEq γ] [LawfulBEq γ] [DecidableEq γ] (a b : γ) :
    (a == b) = decide (a = b) := by
  by_cases h : a = b <;> simp [h]

theorem bool_shuffle (x y z : Bool) : (x && (y && z)) = ((y && x) && z) := by
  cases x <;> cases y <;> cases z <;> rfl

/-- `get_severities_all` at a non-null key is the plain count of the
findings carrying that severity. -/
theorem get_severities_all_some (fs : List Finding) (s : String) :
    get_severities_all fs (some s) =
      fs.countP fun f => decide (f.severity = some s) := by
  rw [get_severities_all_eq]
  by_cases h : some s ∈ severityKeys fs
  · rw [if_pos h]
    apply List.countP_congr
    intro f _
    by_cases hf : f.severity = some s <;> simp [hf]
  · rw [if_neg h]
    have : ∀ f ∈ fs, ¬f.severity = some s := by
      intro f hf hs
      exact h (List.mem_dedup.mpr (List.mem_map.mpr ⟨f, hf, hs⟩))
    symm
    rw [List.countP_eq_zero]
    intro f hf
    simpa using this f hf

/-- The slot value of a row, restated with the slot name's membership proof
inlined for each of the six slots. -/
theorem by_month_slot_fields (fs : List Finding) (today : Date) (r : MonthRow)
    (hr : r ∈ get_severities_by_month fs today) :
    (r.a = (fs.filter (inLast6Months today)).countP
      (fun f => decide (findingMonthKey f = r.y) &&
        decide (SEVERITY_MAP_get f.severity = some "a") && f.severity.isSome)) ∧
    (r.b = (fs.filter (inLast6Months today)).countP
      (fun f => decide (findingMonthKey f = r.y) &&
        decide (SEVERITY_MAP_get f.severity = some "b") && f.severity.isSome)) ∧
    (r.c = (fs.filter (inLast6Months today)).countP
      (fun f => decide (findingMonthKey f = r.y) &&
        decide (SEVERITY_MAP_get f.severity = some "c") && f.severity.isSome)) ∧
    (r.d = (fs.filter (inLast6Months today)).countP
      (fun f => decide (findingMonthKey f = r.y) &&
        decide (SEVERITY_MAP_get f.severity = some "d") && f.severity.isSome)) ∧
    (r.e = (fs.filter (inLast6Months today)).countP
      (fun f => decide (findingMonthKey f = r.y) &&
        decide (SEVERITY_MAP_get f.severity = some "e") && f.severity.isSome)) ∧
    (r.unmapped = (fs.filter (inLast6Months today)).countP
      (fun f => decide (findingMonthKey f = r.y) &&
        decide (SEVERITY_MAP_get f.severity = none) && f.severity.isSome)) :=
  ⟨by_month_slot fs today r hr (some "a") (by simp [slotNames]),
   by_month_slot fs today r hr (some "b") (by simp [slotNames]),
   by_month_slot fs today r hr (some "c") (by simp [slotNames]),
   by_month_slot fs today r hr (some "d") (by simp [slotNames]),
   by_month_slot fs today r hr (some "e") (by simp [slotNames]),
   by_month_slot fs today r hr none (by simp [slotNames])⟩

/-- Each slot count, reshaped to the form produced by the six-way slot
partition of `sum_map_countP_true`. -/
theorem slot_countP_reorder (l : List Finding) (k : String) (sl : Option String) :
    l.countP (fun f => (SEVERITY_MAP_get f.severity == sl) &&
        (decide (findingMonthKey f = k) && f.severity.isSome)) =
      l.countP (fun f => decide (findingMonthKey f = k) &&
        decide (SEVERITY_MAP_get f.severity = sl) && f.severity.isSome) := by
  apply List.countP_congr
  intro f _
  rw [beq_eq_decideEq, bool_shuffle]

theorem row_sum_eq (fs : List Finding) (today : Date) (r : MonthRow)
    (hr : r ∈ get_severities_by_month fs today) :
    r.a + r.b + r.c + r.d + r.e + r.unmapped =
      (fs.filter (inLast6Months today)).countP
        (fun f => decide (findingMonthKey f = r.y) && f.severity.isSome) := by
  obtain ⟨ha, hb, hc, hd, he, hu⟩ := by_month_slot_fields fs today r hr
  have hsum := sum_map_countP_true (fs.filter (inLast6Months today))
    (fun f => SEVERITY_MAP_get f.severity)
    (fun f => decide (findingMonthKey f = r.y) && f.severity.isSome)
    slotNames (by simp [slotNames])
  rw [show (slotNames.map fun sl => (fs.filter (inLast6Months today)).countP
      fun f => (SEVERITY_MAP_get f.severity == sl) &&
        (decide (findingMonthKey f = r.y) && f.severity.isSome)).sum =
    ((fs.filter (inLast6Months today)).countP fun f =>
        (SEVERITY_MAP_get f.severity == some "a") &&
          (decide (findingMonthKey f = r.y) && f.severity.isSome)) +
      (((fs.filter (inLast6Months today)).countP fun f =>
        (SEVERITY_MAP_get f.severity == some "b") &&
          (decide (findingMonthKey f = r.y) && f.severity.isSome)) +
      (((fs.filter (inLast6Months today)).countP fun f =>
        (SEVERITY_MAP_get f.severity == some "c") &&
          (decide (findingMonthKey f = r.y) && f.severity.isSome)) +
      (((fs.filter (inLast6Months today)).countP fun f =>
        (SEVERITY_MAP_get f.severity == some "d") &&
          (decide (findingMonthKey f = r.y) && f.severity.isSome)) +
      (((fs.filter (inLast6Months today)).countP fun f =>
        (SEVERITY_MAP_get f.severity == some "e") &&
          (decide (findingMonthKey f = r.y) && f.severity.isSome)) +
      (((fs.filter (inLast6Months today)).countP fun f =>
        (SEVERITY_MAP_get f.severity == none) &&
          (decide (findingMonthKey f = r.y) && f.severity.isSome)) + 0))))) from by
    simp [slotNames]] at hsum
  rw [slot_countP_reorder, slot_countP_reorder, slot_countP_reorder,
    slot_countP_reorder, slot_countP_reorder, slot_countP_reorder] at hsum
  rw [← ha, ← hb, ← hc, ← hd, ← he, ← hu] at hsum
  have hright : ((fs.filter (inLast6Months today)).countP fun f =>
      decide (SEVERITY_MAP_get f.severity ∈ slotNames) &&
        (decide (findingMonthKey f = r.y) && f.severity.isSome)) =
      (fs.filter (inLast6Months today)).countP
        (fun f => decide (findingMonthKey f = r.y) && f.severity.isSome) := by
    apply List.countP_congr
    intro f _
    have hm : SEVERITY_MAP_get f.severity ∈ slotNames :=
      SEVERITY_MAP_get_mem_slotNames f.severity
    simp [hm]
  rw [hright] at hsum
  omega

theorem SEVERITY_MAP_get_eq_a_iff (x : Option String) :
    SEVERITY_MAP_get x = some "a" ↔ x = some "Critical" := by
  unfold SEVERITY_MAP_get
  split <;> simp_all

theorem SEVERITY_MAP_get_eq_b_iff (x : Option String) :
    SEVERITY_MAP_get x = some "b" ↔ x = some "High" := by
  unfold SEVERITY_MAP_get
  split <;> simp_all

theorem SEVERITY_MAP_get_eq_c_iff (x : Option String) :
    SEVERITY_MAP_get x = some "c" ↔ x = some "Medium" := by
  unfold SEVERITY_MAP_get
  split <;> simp_all

theorem SEVERITY_MAP_get_eq_d_iff (x : Option String) :
    SEVERITY_MAP_get x = some "d" ↔ x = some "Low" := by
  unfold SEVERITY_MAP_get
  split <;> simp_all

theorem SEVERITY_MAP_get_eq_e_iff (x : Option String) :
    SEVERITY_MAP_get x = some "e" ↔ x = some "Info" := by
  unfold SEVERITY_MAP_get
  split <;> simp_all

theorem slot_label_countP (l : List Finding) (k : String) (lab code : String)
    (hiff : ∀ x : Option String, SEVERITY_MAP_get x = some code ↔ x = some lab) :
    l.countP (fun f => decide (findingMonthKey f = k) &&
        decide (SEVERITY_MAP_get f.severity = some code) && f.severity.isSome) =
      l.countP (fun f => decide (findingMonthKey f = k) &&
        decide (f.severity = some lab)) := by
  apply List.countP_congr
  intro f _
  by_cases h1 : findingMonthKey f = k <;> by_cases h2 : f.severity = some lab
  · simp [h1, h2, (hiff (some lab)).mpr rfl]
  · have hne : ¬SEVERITY_MAP_get f.severity = some code := fun hc => h2 ((hiff _).mp hc)
    simp [h1, h2, hne]
  · simp [h1]
  · simp [h1]

/-- C2 (counterexample): a collection holding one null-severity finding
created 2022-06-01 yields, for reference date 2022-06-15, one row
(key `"2022-06"`) whose six counters sum to `0`, although one finding was
created in that month inside the window — `COUNT(severity)` skips nulls. -/
theorem C2_counterexample :
    (get_severities_by_month [fNull] sampleToday).map MonthRow.y = ["2022-06"] ∧
      (get_severities_by_month [fNull] sampleToday).map
        (fun r => r.a + r.b + r.c + r.d + r.e + r.unmapped) = [0] ∧
      (([fNull].filter (inLast6Months sampleToday)).filter
        (fun f => decide (findingMonthKey f = "2022-06"))).length = 1 := by
  decide

/-- C2 (amended): every row produced by `get_severities_by_month` has its
five severity-code counters plus the unmapped counter summing to the number
of findings created in that row's calendar month (within the trailing
6-month window) that carry a non-null severity; a null-severity finding
created in the month contributes nothing to the sum. -/
theorem C2_row_sum (fs : List Finding) (today : Date) (r : MonthRow)
    (hr : r ∈ get_severities_by_month fs today) :
    r.a + r.b + r.c + r.d + r.e + r.unmapped =
      ((fs.filter (inLast6Months today)).filter
        (fun f => decide (findingMonthKey f = r.y) && f.severity.isSome)).length := by
  rw [← List.countP_eq_length_filter]
  exact row_sum_eq fs today r hr

/-- C2 (witness): for one Critical finding created 2022-06-01 and reference
date 2022-06-15, the single row `⟨"2022-06", 1, 0, 0, 0, 0, 0⟩` sums to the
one matching finding. -/
theorem C2_witness :
    ((⟨"2022-06", 1, 0, 0, 0, 0, 0⟩ : MonthRow) ∈
        get_severities_by_month [fCrit] sampleToday) ∧
      1 + 0 + 0 + 0 + 0 + 0 =
        (([fCrit].filter (inLast6Months sampleToday)).filter
          (fun f => decide (findingMonthKey f = "2022-06") &&
            f.severity.isSome)).length :=
  ⟨by decide,
   C2_row_sum [fCrit] sampleToday ⟨"2022-06", 1, 0, 0, 0, 0, 0⟩ (by decide)⟩

/-- C8: a month key appears among the rows of `get_severities_by_month`
exactly when at least one in-window finding was created in that month; a
window month with zero findings produces no row. -/
theorem C8_row_iff (fs : List Finding) (today : Date) (k : String) :
    (∃ r ∈ get_severities_by_month fs today, r.y = k) ↔
      ∃ f ∈ fs, inLast6Months today f = true ∧ findingMonthKey f = k :=
  by_month_key_exists_iff fs today k

/-- C10: a null-severity finding contributes `0` everywhere: the
severity-total mapping maps the null key to `0` (`COUNT` of a null column),
and in the monthly breakdown a month all of whose in-window findings have
null severity still emits a row, with all six counters zero. -/
theorem C10_null_severity (fs : List Finding) (today : Date) (f : Finding)
    (hf : f ∈ fs) (hsev : f.severity = none) (hw : inLast6Months today f = true)
    (honly : ∀ g ∈ fs, inLast6Months today g = true →
      findingMonthKey g = findingMonthKey f → g.severity = none) :
    get_severities_all fs none = 0 ∧
      ∃ r ∈ get_severities_by_month fs today, r.y = findingMonthKey f ∧
        r.a = 0 ∧ r.b = 0 ∧ r.c = 0 ∧ r.d = 0 ∧ r.e = 0 ∧ r.unmapped = 0 := by
  constructor
  · rw [get_severities_all_eq]
    by_cases h : none ∈ severityKeys fs
    · rw [if_pos h, List.countP_eq_zero]
      intro g _
      cases hgs : g.severity <;> simp [hgs]
    · rw [if_neg h]
  · obtain ⟨r, hr, hry⟩ :=
      (by_month_key_exists_iff fs today (findingMonthKey f)).mpr ⟨f, hf, hw, rfl⟩
    refine ⟨r, hr, hry, ?_⟩
    obtain ⟨ha, hb, hc, hd, he, hu⟩ := by_month_slot_fields fs today r hr
    have hzero : ∀ sl : Option String,
        (fs.filter (inLast6Months today)).countP
          (fun g => decide (findingMonthKey g = r.y) &&
            decide (SEVERITY_MAP_get g.severity = sl) && g.severity.isSome) = 0 := by
      intro sl
      rw [List.countP_eq_zero]
      intro g hg
      have hg' := List.mem_filter.mp hg
      by_cases hk : findingMonthKey g = r.y
      · have hnone : g.severity = none := honly g hg'.1 hg'.2 (by rw [hk, hry])
        simp [hnone]
      · simp [hk]
    exact ⟨ha.trans (hzero _), hb.trans (hzero _), hc.trans (hzero _),
      hd.trans (hzero _), he.trans (hzero _), hu.trans (hzero _)⟩

/-- C10 (witness): the null-severity finding of June 2022 satisfies the
hypotheses and its month's row exists with all counters zero. -/
theorem C10_witness :
    (fNull ∈ [fNull]) ∧ fNull.severity = none ∧
      inLast6Months sampleToday fNull = true ∧
      (∀ g ∈ [fNull], inLast6Months sampleToday g = true →
        findingMonthKey g = findingMonthKey fNull → g.severity = none) ∧
      (get_severities_all [fNull] none = 0 ∧
        ∃ r ∈ get_severities_by_month [fNull] sampleToday,
          r.y = findingMonthKey fNull ∧
          r.a = 0 ∧ r.b = 0 ∧ r.c = 0 ∧ r.d = 0 ∧ r.e = 0 ∧ r.unmapped = 0) :=
  ⟨by decide, by decide, by decide, by decide,
   C10_null_severity [fNull] sampleToday fNull (by decide) (by decide)
     (by decide) (by decide)⟩

/-- C6: a finding whose severity lies outside the known enumeration is
counted in the severity totals under its literal label, while in the
monthly breakdown it lands in the unmapped slot: the unmapped counter
counts exactly the non-null severities that `SEVERITY_MAP` does not know,
and each of the five labelled slots counts exactly its own label. -/
theorem C6_unknown_severity (fs : List Finding) (today : Date) (s : String)
    (hs : SEVERITY_MAP_get (some s) = none) :
    get_severities_all fs (some s) =
        fs.countP (fun f => decide (f.severity = some s)) ∧
      ∀ r ∈ get_severities_by_month fs today,
        r.unmapped = (fs.filter (inLast6Months today)).countP
          (fun f => decide (findingMonthKey f = r.y) &&
            decide (SEVERITY_MAP_get f.severity = none) && f.severity.isSome) ∧
        r.a = (fs.filter (inLast6Months today)).countP
          (fun f => decide (findingMonthKey f = r.y) &&
            decide (f.severity = some "Critical")) ∧
        r.b = (fs.filter (inLast6Months today)).countP
          (fun f => decide (findingMonthKey f = r.y) &&
            decide (f.severity = some "High")) ∧
        r.c = (fs.filter (inLast6Months today)).countP
          (fun f => decide (findingMonthKey f = r.y) &&
            decide (f.severity = some "Medium")) ∧
        r.d = (fs.filter (inLast6Months today)).countP
          (fun f => decide (findingMonthKey f = r.y) &&
            decide (f.severity = some "Low")) ∧
        r.e = (fs.filter (inLast6Months today)).countP
          (fun f => decide (findingMonthKey f = r.y) &&
            decide (f.severity = some "Info")) := by
  refine ⟨get_severities_all_some fs s, ?_⟩
  intro r hr
  obtain ⟨ha, hb, hc, hd, he, hu⟩ := by_month_slot_fields fs today r hr
  exact ⟨hu,
    ha.trans (slot_label_countP _ _ "Critical" "a" SEVERITY_MAP_get_eq_a_iff),
    hb.trans (slot_label_countP _ _ "High" "b" SEVERITY_MAP_get_eq_b_iff),
    hc.trans (slot_label_countP _ _ "Medium" "c" SEVERITY_MAP_get_eq_c_iff),
    hd.trans (slot_label_countP _ _ "Low" "d" SEVERITY_MAP_get_eq_d_iff),
    he.trans (slot_label_countP _ _ "Info" "e" SEVERITY_MAP_get_eq_e_iff)⟩

/-- C6 (witness): the `"Foo"` severity is outside the enumeration; for a
collection holding one such finding the totals count it under `"Foo"` and
its month's row carries it in the unmapped slot. -/
theorem C6_witness :
    SEVERITY_MAP_get (some "Foo") = none ∧
      (get_severities_all [fFoo] (some "Foo") =
          [fFoo].countP (fun f => decide (f.severity = some "Foo")) ∧
        ∀ r ∈ get_severities_by_month [fFoo] sampleToday,
          r.unmapped = ([fFoo].filter (inLast6Months sampleToday)).countP
            (fun f => decide (findingMonthKey f = r.y) &&
              decide (SEVERITY_MAP_get f.severity = none) && f.severity.isSome) ∧
          r.a = ([fFoo].filter (inLast6Months sampleToday)).countP
            (fun f => decide (findingMonthKey f = r.y) &&
              decide (f.severity = some "Critical")) ∧
          r.b = ([fFoo].filter (inLast6Months sampleToday)).countP
            (fun f => decide (findingMonthKey f = r.y) &&
              decide (f.severity = some "High")) ∧
          r.c = ([fFoo].filter (inLast6Months sampleToday)).countP
            (fun f => decide (findingMonthKey f = r.y) &&
              decide (f.severity = some "Medium")) ∧
          r.d = ([fFoo].filter (inLast6Months sampleToday)).countP
            (fun f => decide (findingMonthKey f = r.y) &&
              decide (f.severity = some "Low")) ∧
          r.e = ([fFoo].filter (inLast6Months sampleToday)).countP
            (fun f => decide (findingMonthKey f = r.y) &&
              decide (f.severity = some "Info"))) :=
  ⟨by decide, C6_unknown_severity [fFoo] sampleToday "Foo" (by decide)⟩

/-- C9: the `dashboard` view is a pure read over the externally owned data:
the state it hands back is the state it received — no finding, engagement,
or risk-acceptance record is created, mutated, or destroyed.  (The source
performs no `save`/`create`/`delete` call, so its embedding threads the
state through unchanged; this theorem records that frame condition.) -/
theorem C9_no_mutation (st : DojoState) (today : Date) :
    (dashboard st today).1 = st := rfl

theorem leB_eq_false_of_ltB (a b : Date) (h : Date.ltB a b = true) :
    Date.leB b a = false := by
  rw [Date.ltB_iff] at h
  cases hle : Date.leB b a
  · rfl
  · rw [Date.leB_iff] at hle
    omega

theorem subMonths_7_lt_6 (today : Date) (h : 1 ≤ today.year) :
    Date.ltB (Date.subMonths today 7) (Date.subMonths today 6) = true := by
  rw [Date.ltB_iff]
  unfold Date.subMonths
  simp only
  omega

/-- C5: `get_severities_by_month` considers only findings created on or
after `today - relativedelta(months=6)`: the output is unchanged by
restricting the input to the window, and a finding created exactly seven
months before `today` contributes to no row. -/
theorem C5_six_month_cutoff (fs : List Finding) (today : Date) (f : Finding)
    (hy : 1 ≤ today.year) (hf : f.created = Date.subMonths today 7) :
    get_severities_by_month fs today =
        get_severities_by_month (fs.filter (inLast6Months today)) today ∧
      get_severities_by_month (f :: fs) today =
        get_severities_by_month fs today := by
  have hout : inLast6Months today f = false := by
    unfold inLast6Months sixMonthsAgo
    rw [hf]
    exact leB_eq_false_of_ltB _ _ (subMonths_7_lt_6 today hy)
  constructor
  · unfold get_severities_by_month resultsOf
    rw [List.filter_filter]
    have : (fs.filter fun a => inLast6Months today a && inLast6Months today a) =
        fs.filter (inLast6Months today) := by
      apply List.filter_congr
      intro a _
      cases h : inLast6Months today a <;> simp
    rw [this]
  · unfold get_severities_by_month resultsOf
    rw [List.filter_cons_of_neg (by simp [hout])]

/-- C5 (witness): with reference date 2022-06-15, a finding created
2021-11-15 (= seven months earlier under `relativedelta`) is excluded. -/
theorem C5_witness :
    1 ≤ sampleToday.year ∧
      fSevenMonths.created = Date.subMonths sampleToday 7 ∧
      (get_severities_by_month [fCrit] sampleToday =
          get_severities_by_month ([fCrit].filter (inLast6Months sampleToday))
            sampleToday ∧
        get_severities_by_month [fSevenMonths, fCrit] sampleToday =
          get_severities_by_month [fCrit] sampleToday) :=
  ⟨by decide, by decide,
   C5_six_month_cutoff [fCrit] sampleToday fSevenMonths (by decide) (by decide)⟩

/-- C4: the dashboard's trailing-week counts use the inclusive 7-day window
`[today - 6 days, today]`: each of the three counts is the number of
findings whose relevant date (creation, mitigation, or some associated
risk-acceptance creation) falls in the window, and the counts are
independent — one finding created, mitigated and accepted in the window
increments all three. -/
theorem C4_week_counts (fs : List Finding) (today : Date) (f : Finding)
    (h1 : Date.leB (beginning_date today) f.created = true)
    (h2 : Date.leB f.created today = true)
    (hm : f.mitigated = some f.created)
    (hra : f.created ∈ f.risk_acceptance) :
    finding_count fs today = fs.countP (fun g =>
        Date.leB (beginning_date today) g.created && Date.leB g.created today) ∧
      mitigated_count fs today = fs.countP (fun g =>
        match g.mitigated with
        | some d => Date.leB (beginning_date today) d && Date.leB d today
        | none => false) ∧
      accepted_count fs today = fs.countP (fun g =>
        g.risk_acceptance.any fun d =>
          Date.leB (beginning_date today) d && Date.leB d today) ∧
      finding_count (f :: fs) today = finding_count fs today + 1 ∧
      mitigated_count (f :: fs) today = mitigated_count fs today + 1 ∧
      accepted_count (f :: fs) today = accepted_count fs today + 1 := by
  refine ⟨(List.countP_eq_length_filter _ _).symm,
    (List.countP_eq_length_filter _ _).symm,
    (List.countP_eq_length_filter _ _).symm, ?_, ?_, ?_⟩
  · unfold finding_count
    rw [List.filter_cons_of_pos (by rw [h1, h2]; rfl), List.length_cons]
  · unfold mitigated_count
    rw [List.filter_cons_of_pos (by rw [hm]; dsimp only; rw [h1, h2]; rfl),
      List.length_cons]
  · unfold accepted_count
    rw [List.filter_cons_of_pos ?_, List.length_cons]
    rw [List.any_eq_true]
    exact ⟨f.created, hra, by rw [h1, h2]; rfl⟩

/-- C4 (witness): a finding created, mitigated and accepted on the
reference day lies in the inclusive window and bumps all three counts. -/
theorem C4_witness :
    Date.leB (beginning_date sampleToday) fAllThree.created = true ∧
      Date.leB fAllThree.created sampleToday = true ∧
      fAllThree.mitigated = some fAllThree.created ∧
      fAllThree.created ∈ fAllThree.risk_acceptance ∧
      (finding_count [fCrit] sampleToday = [fCrit].countP (fun g =>
          Date.leB (beginning_date sampleToday) g.created &&
            Date.leB g.created sampleToday) ∧
        mitigated_count [fCrit] sampleToday = [fCrit].countP (fun g =>
          match g.mitigated with
          | some d => Date.leB (beginning_date sampleToday) d &&
              Date.leB d sampleToday
          | none => false) ∧
        accepted_count [fCrit] sampleToday = [fCrit].countP (fun g =>
          g.risk_acceptance.any fun d =>
            Date.leB (beginning_date sampleToday) d && Date.leB d sampleToday) ∧
        finding_count (fAllThree :: [fCrit]) sampleToday =
          finding_count [fCrit] sampleToday + 1 ∧
        mitigated_count (fAllThree :: [fCrit]) sampleToday =
          mitigated_count [fCrit] sampleToday + 1 ∧
        accepted_count (fAllThree :: [fCrit]) sampleToday =
          accepted_count [fCrit] sampleToday + 1) :=
  ⟨by decide, by decide, by decide, by decide,
   C4_week_counts [fCrit] sampleToday fAllThree (by decide) (by decide)
     (by decide) (by decide)⟩

theorem natDigitsAux_congr :
    ∀ f1 : Nat, ∀ n, n ≤ f1 → ∀ f2, n ≤ f2 → natDigitsAux f1 n = natDigitsAux f2 n := by
  intro f1
  induction f1 with
  | zero =>
      intro n hn f2 _
      have hn0 : n = 0 := Nat.le_zero.mp hn
      subst hn0
      cases f2 with
      | zero => rfl
      | succ f => simp [natDigitsAux]
  | succ f ih =>
      intro n _ f2 h2
      cases f2 with
      | zero =>
          have hn0 : n = 0 := Nat.le_zero.mp h2
          subst hn0
          simp [natDigitsAux]
      | succ f2' =>
          by_cases h10 : n < 10
          · simp [natDigitsAux, h10]
          · rw [show natDigitsAux (f + 1) n = natDigitsAux f (n / 10) ++ [n % 10] from by
                simp [natDigitsAux, h10],
              show natDigitsAux (f2' + 1) n = natDigitsAux f2' (n / 10) ++ [n % 10] from by
                simp [natDigitsAux, h10]]
            rw [ih (n / 10) (by omega) f2' (by omega)]

theorem natDigits_ge10 (n : Nat) (h : 10 ≤ n) :
    natDigits n = natDigits (n / 10) ++ [n % 10] := by
  unfold natDigits
  obtain ⟨f, rfl⟩ : ∃ f, n = f + 1 := ⟨n - 1, by omega⟩
  rw [show natDigitsAux (f + 1) (f + 1) = natDigitsAux f ((f + 1) / 10) ++ [(f + 1) % 10] from by
    simp [natDigitsAux, Nat.not_lt.mpr h]]
  rw [natDigitsAux_congr f ((f + 1) / 10) (by omega) ((f + 1) / 10) (le_refl _)]

theorem natDigits_lt10 (n : Nat) (h : n < 10) : natDigits n = [n] := by
  unfold natDigits
  cases n with
  | zero => rfl
  | succ f => simp [natDigitsAux, h]

theorem natDigits_four (y : Nat) (h1 : 1000 ≤ y) (h2 : y ≤ 9999) :
    natDigits y = [y / 1000, y / 100 % 10, y / 10 % 10, y % 10] := by
  rw [natDigits_ge10 y (by omega),
    natDigits_ge10 (y / 10) (by omega),
    natDigits_ge10 (y / 10 / 10) (by omega),
    natDigits_lt10 (y / 10 / 10 / 10) (by omega)]
  have e2 : y / 10 / 10 = y / 100 := by
    rw [Nat.div_div_eq_div_mul]
  rw [e2]
  have e3 : y / 100 / 10 = y / 1000 := by
    rw [Nat.div_div_eq_div_mul]
  rw [e3]
  simp

theorem digitChar_lt : ∀ a < 10, ∀ b < 10, a < b → digitChar a < digitChar b := by
  decide

theorem lex_append_of_length {r : Char → Char → Prop} :
    ∀ {as bs : List Char}, List.Lex r as bs → as.length = bs.length →
      ∀ cs ds, List.Lex r (as ++ cs) (bs ++ ds) := by
  intro as bs h
  induction h with
  | nil => intro hlen; simp at hlen
  | @cons a l1 l2 _ ih =>
      intro hlen cs ds
      exact List.Lex.cons (ih (by simpa using hlen) cs ds)
  | @rel a1 l1 a2 l2 h =>
      intro _ cs ds
      exact List.Lex.rel h

theorem lex_four {ch : Nat → Char}
    (hmono : ∀ a, a < 10 → ∀ b, b < 10 → a < b → ch a < ch b) :
    ∀ a1 b1 c1 d1 a2 b2 c2 d2 : Nat, a1 < 10 → b1 < 10 → c1 < 10 → d1 < 10 →
      a2 < 10 → b2 < 10 → c2 < 10 → d2 < 10 →
      (a1 < a2 ∨ (a1 = a2 ∧ (b1 < b2 ∨ (b1 = b2 ∧ (c1 < c2 ∨ (c1 = c2 ∧ d1 < d2)))))) →
      List.Lex (· < ·) [ch a1, ch b1, ch c1, ch d1] [ch a2, ch b2, ch c2, ch d2] := by
  intro a1 b1 c1 d1 a2 b2 c2 d2 ha1 hb1 hc1 hd1 ha2 hb2 hc2 hd2 h
  rcases h with h | ⟨rfl, h | ⟨rfl, h | ⟨rfl, h⟩⟩⟩
  · exact List.Lex.rel (hmono _ ha1 _ ha2 h)
  · exact List.Lex.cons (List.Lex.rel (hmono _ hb1 _ hb2 h))
  · exact List.Lex.cons (List.Lex.cons (List.Lex.rel (hmono _ hc1 _ hc2 h)))
  · exact List.Lex.cons (List.Lex.cons (List.Lex.cons (List.Lex.rel (hmono _ hd1 _ hd2 h))))

theorem pad2_mono :
    ∀ m2 < 13, ∀ m1 < m2,
      List.Lex (· < ·)
        (if m1 < 10 then "0" ++ natStr m1 else natStr m1).toList
        (if m2 < 10 then "0" ++ natStr m2 else natStr m2).toList := by
  decide

/-- The `"YYYY-MM"` key map respects chronological order as long as every
year has four decimal digits (Python dates cap the year at 9999; years
below 1000 print with fewer digits and break the lexicographic order). -/
theorem monthKey_strictMono (y1 m1 y2 m2 : Nat)
    (hy1 : 1000 ≤ y1) (hy1' : y1 ≤ 9999) (hy2 : 1000 ≤ y2) (hy2' : y2 ≤ 9999)
    (hm1 : 1 ≤ m1) (hm1' : m1 ≤ 12) (hm2 : 1 ≤ m2) (hm2' : m2 ≤ 12)
    (h : y1 < y2 ∨ (y1 = y2 ∧ m1 < m2)) :
    monthKey y1 m1 < monthKey y2 m2 := by
  rw [String.lt_iff_toList_lt]
  have e : ∀ y m : Nat, (monthKey y m).toList =
      ((natDigits y).map digitChar ++ ['-']) ++
        (if m < 10 then "0" ++ natStr m else natStr m).toList := fun y m => rfl
  rw [e, e]
  show List.Lex (· < ·) _ _
  rcases h with h | ⟨rfl, h⟩
  · -- years differ: the 4-digit prefixes decide
    apply lex_append_of_length _ (by simp [natDigits_four _ hy1 hy1', natDigits_four _ hy2 hy2'])
    apply lex_append_of_length _ (by simp [natDigits_four _ hy1 hy1', natDigits_four _ hy2 hy2'])
    rw [natDigits_four _ hy1 hy1', natDigits_four _ hy2 hy2']
    simp only [List.map_cons, List.map_nil]
    exact lex_four digitChar_lt _ _ _ _ _ _ _ _
      (by omega) (by omega) (by omega) (by omega)
      (by omega) (by omega) (by omega) (by omega)
      (by omega)
  · -- same year: the zero-padded months decide
    apply List.Lex.append_left
    exact pad2_mono m2 (by omega) m1 h

/-- Output rows of `get_severities_by_month` are strictly ascending in
their `"YYYY-MM"` key string (hence keys are pairwise distinct). -/
theorem by_month_pairwise_keys (fs : List Finding) (today : Date) :
    List.Pairwise (fun r1 r2 : MonthRow => r1.y < r2.y)
      (get_severities_by_month fs today) := by
  unfold get_severities_by_month
  have hperm : List.Perm (List.insertionSort rowLE (resultsOf fs today))
      (resultsOf fs today) :=
    List.perm_insertionSort rowLE _
  have hsorted : List.Sorted rowLE (List.insertionSort rowLE (resultsOf fs today)) :=
    List.sorted_insertionSort rowLE _
  have hnd : ((List.insertionSort rowLE (resultsOf fs today)).map Prod.fst).Nodup :=
    ((hperm.map Prod.fst).nodup_iff).mpr (resultsOf_nodup_keys fs today)
  have hne : List.Pairwise (fun p q : String × MonthRow => p.1 ≠ q.1)
      (List.insertionSort rowLE (resultsOf fs today)) :=
    (List.pairwise_map).mp hnd
  have hlt : List.Pairwise (fun p q : String × MonthRow => p.1 < q.1)
      (List.insertionSort rowLE (resultsOf fs today)) :=
    (List.Pairwise.and hsorted hne).imp fun h => lt_of_le_of_ne h.1 h.2
  have hy : ∀ p ∈ List.insertionSort rowLE (resultsOf fs today), (Prod.snd p).y = p.1 :=
    fun p hp => resultsOf_y fs today p ((List.mem_insertionSort rowLE).mp hp)
  have hsnd : List.Pairwise
      (fun p q : String × MonthRow => (Prod.snd p).y < (Prod.snd q).y)
      (List.insertionSort rowLE (resultsOf fs today)) :=
    hlt.imp_of_mem fun {a b} ha hb h => by rw [hy a ha, hy b hb]; exact h
  exact (List.pairwise_map).mpr hsnd

/-- C3 (counterexample): with findings created in August 999 and January
1000 (both valid Python dates) and reference date 1000-01-15, the output is
ascending in the key string, but `"1000-01"` sorts before `"999-08"`
although its month is chronologically later: the `"YYYY-MM"` key is only
zero-padded in the month, so three-digit years break the claimed
date-order equivalence. -/
theorem C3_counterexample :
    (get_severities_by_month [fOld999, fNew1000] today1000).map MonthRow.y =
        ["1000-01", "999-08"] ∧
      findingMonthKey fOld999 = "999-08" ∧
      findingMonthKey fNew1000 = "1000-01" ∧
      fOld999.created.year < fNew1000.created.year ∧
      ¬("999-08" < "1000-01") := by
  refine ⟨by decide, by decide, by decide, by decide, ?_⟩
  intro hc
  rw [String.lt_iff_toList_lt] at hc
  have hnl : ¬List.Lex (· < ·) "999-08".toList "1000-01".toList := by decide
  exact hnl hc

/-- C3 (amended): the rows of `get_severities_by_month` are strictly
ascending in their `"YYYY-MM"` key string, with no duplicate keys; and
provided every in-window finding's creation year has four decimal digits
(1000–9999, which Python's date type caps at 9999) and a valid month, this
lexicographic order coincides with the chronological (year, month) order of
the rows' months. -/
theorem C3_sorted (fs : List Finding) (today : Date)
    (hval : ∀ f ∈ fs, inLast6Months today f = true →
      1000 ≤ f.created.year ∧ f.created.year ≤ 9999 ∧
        1 ≤ f.created.month ∧ f.created.month ≤ 12) :
    List.Pairwise (fun r1 r2 : MonthRow => r1.y < r2.y)
        (get_severities_by_month fs today) ∧
      List.Pairwise (fun r1 r2 : MonthRow =>
        ∀ f ∈ fs, ∀ g ∈ fs, inLast6Months today f = true →
          inLast6Months today g = true →
          findingMonthKey f = r1.y → findingMonthKey g = r2.y →
          (f.created.year < g.created.year ∨
            (f.created.year = g.created.year ∧ f.created.month < g.created.month)))
        (get_severities_by_month fs today) := by
  have hp := by_month_pairwise_keys fs today
  refine ⟨hp, hp.imp_of_mem ?_⟩
  intro r1 r2 h1 h2 hlt f hf g hg hwf hwg hkf hkg
  obtain ⟨hyf1, hyf2, hmf1, hmf2⟩ := hval f hf hwf
  obtain ⟨hyg1, hyg2, hmg1, hmg2⟩ := hval g hg hwg
  by_cases heq : f.created.year = g.created.year ∧ f.created.month = g.created.month
  · exfalso
    have hkk : findingMonthKey f = findingMonthKey g := by
      unfold findingMonthKey
      rw [heq.1, heq.2]
    rw [hkf, hkg] at hkk
    rw [hkk] at hlt
    exact lt_irrefl _ hlt
  · by_cases hcl : f.created.year < g.created.year ∨
        (f.created.year = g.created.year ∧ f.created.month < g.created.month)
    · exact hcl
    · exfalso
      have hgf : g.created.year < f.created.year ∨
          (g.created.year = f.created.year ∧ g.created.month < f.created.month) := by
        omega
      have hmk := monthKey_strictMono g.created.year g.created.month
        f.created.year f.created.month hyg1 hyg2 hyf1 hyf2 hmg1 hmg2 hmf1 hmf2 hgf
      rw [show monthKey g.created.year g.created.month = findingMonthKey g from rfl,
        show monthKey f.created.year f.created.month = findingMonthKey f from rfl,
        hkf, hkg] at hmk
      exact lt_asymm hlt hmk

/-- C3 (witness): a one-finding collection with a four-digit year satisfies
the hypothesis and both orderings. -/
theorem C3_witness :
    (∀ f ∈ [fCrit], inLast6Months sampleToday f = true →
        1000 ≤ f.created.year ∧ f.created.year ≤ 9999 ∧
          1 ≤ f.created.month ∧ f.created.month ≤ 12) ∧
      (List.Pairwise (fun r1 r2 : MonthRow => r1.y < r2.y)
          (get_severities_by_month [fCrit] sampleToday) ∧
        List.Pairwise (fun r1 r2 : MonthRow =>
          ∀ f ∈ [fCrit], ∀ g ∈ [fCrit], inLast6Months sampleToday f = true →
            inLast6Months sampleToday g = true →
            findingMonthKey f = r1.y → findingMonthKey g = r2.y →
            (f.created.year < g.created.year ∨
              (f.created.year = g.created.year ∧
                f.created.month < g.created.month)))
          (get_severities_by_month [fCrit] sampleToday)) :=
  ⟨by decide, C3_sorted [fCrit] sampleToday (by decide)⟩

end DojoHome
